import Mathlib

/-!
Shallow embedding of the indradb `wikipedia-example` ingestion pipeline.

The repository contains several historical variants of the same pipeline.
The embedding below covers the two variants the specification's claims refer
to:

* `Indexer` — `src/indexer.rs`: the tokio/channel bulk inserter, the
  `quick_xml` archive state machine, and the `ArticleMap` whose
  `insert_article` issues time-ordered UUID v1 identifiers
  (`Uuid::new_v1(Timestamp::from_unix(..))`).
* `Crawler` — `src/crawler.rs` (and the identical promise-window inserters in
  `src/main.rs`, `src/crawler/main.rs`, `inserter/src/main.rs`): the capnp
  promise-window bulk inserter and the `ArticleMap` whose `insert_article`
  derives identifiers from a 16-byte BLAKE2b hash of the name
  (`util::article_uuid` / `common/lib.rs::article_uuid`).

Effectful Rust code is embedded as explicit state passing: the XML event
stream of `quick_xml::Reader::read_event` becomes a `List XmlEvent` (with the
terminal `Eof` represented both by the explicit `XmlEvent.eof` constructor and
by the end of the list), the wall clock read by `Utc::now()` becomes a tick
counter threaded through `ClockedMap`, and the async channel/worker pool of
the bulk inserter becomes the list of batch buffers handed off so far.
Machine integers are `Nat` with explicit `% 2^64` where overflow matters.
-/

namespace WikiIndex

/-! ### UTF-8: Rust `str::from_utf8` (strict validation) and `str::as_bytes` -/

/-- Is `c` a UTF-8 continuation byte (`0x80..=0xBF`)? -/
def isCont (c : Nat) : Bool := 0x80 ≤ c && c ≤ 0xBF

/-- Strict UTF-8 decoding of a byte sequence, following the validation rules
of Rust `core::str::from_utf8`: rejects overlong encodings, surrogate code
points and values above `0x10FFFF`.  Returns `none` exactly when
`str::from_utf8` returns `Err`. -/
def utf8Decode? : List Nat → Option (List Char)
  | [] => some []
  | b :: rest =>
    if b ≤ 0x7F then
      (utf8Decode? rest).map (fun cs => Char.ofNat b :: cs)
    else if 0xC2 ≤ b && b ≤ 0xDF then
      match rest with
      | c1 :: r =>
        if isCont c1 then
          (utf8Decode? r).map (fun cs => Char.ofNat ((b - 0xC0) * 0x40 + (c1 - 0x80)) :: cs)
        else none
      | [] => none
    else if 0xE0 ≤ b && b ≤ 0xEF then
      match rest with
      | c1 :: c2 :: r =>
        let ok1 : Bool :=
          if b == 0xE0 then 0xA0 ≤ c1 && c1 ≤ 0xBF
          else if b == 0xED then 0x80 ≤ c1 && c1 ≤ 0x9F
          else isCont c1
        if ok1 && isCont c2 then
          (utf8Decode? r).map (fun cs =>
            Char.ofNat (((b - 0xE0) * 0x40 + (c1 - 0x80)) * 0x40 + (c2 - 0x80)) :: cs)
        else none
      | _ => none
    else if 0xF0 ≤ b && b ≤ 0xF4 then
      match rest with
      | c1 :: c2 :: c3 :: r =>
        let ok1 : Bool :=
          if b == 0xF0 then 0x90 ≤ c1 && c1 ≤ 0xBF
          else if b == 0xF4 then 0x80 ≤ c1 && c1 ≤ 0x8F
          else isCont c1
        if ok1 && isCont c2 && isCont c3 then
          (utf8Decode? r).map (fun cs =>
            Char.ofNat ((((b - 0xF0) * 0x40 + (c1 - 0x80)) * 0x40 + (c2 - 0x80)) * 0x40
              + (c3 - 0x80)) :: cs)
        else none
      | _ => none
    else none

/-- UTF-8 encoding of one scalar value (Rust `char` encoding). -/
def utf8EncodeChar (c : Char) : List Nat :=
  let n := c.toNat
  if n ≤ 0x7F then [n]
  else if n ≤ 0x7FF then [0xC0 + n / 0x40, 0x80 + n % 0x40]
  else if n ≤ 0xFFFF then [0xE0 + n / 0x1000, 0x80 + n / 0x40 % 0x40, 0x80 + n % 0x40]
  else [0xF0 + n / 0x40000, 0x80 + n / 0x1000 % 0x40, 0x80 + n / 0x40 % 0x40, 0x80 + n % 0x40]

/-- Rust `str::as_bytes`: the UTF-8 byte sequence of a string. -/
def utf8Encode (s : String) : List Nat := s.data.flatMap utf8EncodeChar

/-! ### String helpers: Rust `str::trim` and `str::starts_with` -/

/-- The Unicode `White_Space` property, as used by Rust `char::is_whitespace`
(and hence by `str::trim`). -/
def isRustWhitespace (c : Char) : Bool :=
  let n := c.toNat
  [0x09, 0x0A, 0x0B, 0x0C, 0x0D, 0x20, 0x85, 0xA0, 0x1680,
   0x2028, 0x2029, 0x202F, 0x205F, 0x3000].contains n
  || (0x2000 ≤ n && n ≤ 0x200A)

/-- Rust `str::trim`: remove leading and trailing whitespace. -/
def trimString (s : String) : String :=
  String.mk (((s.data.dropWhile isRustWhitespace).reverse.dropWhile isRustWhitespace).reverse)

/-- Rust `str::starts_with(p)` for a string pattern `p`. -/
def startsWithStr (s p : String) : Bool := p.data.isPrefixOf s.data

/-- `ARTICLE_NAME_PREFIX_BLACKLIST` from `indexer.rs` / `crawler.rs`
(identical in every variant). -/
def articleNameBlacklist : List String :=
  ["Wikipedia:", "WP:", ":", "File:", "Image:", "Template:", "User:"]

/-- The title filter applied in the `(Title, Event::Text)` arm of
`read_archive`: case-sensitive prefix match against the blacklist. -/
def isBlacklisted (s : String) : Bool :=
  articleNameBlacklist.any (fun p => startsWithStr s p)

/-- `REDIRECT_PREFIX` from `indexer.rs` / `crawler.rs`. -/
def redirectMarker : String := "#REDIRECT [["

/-! ### The wiki-link pattern

`read_archive` scans the record body with the Rust regex
`\[\[([^\[\]|]+)(|[\]]+)?\]\]` via `captures_iter`, keeping capture group 1 of
each match.  `wikiLinkCaptures` is that scan, written out against the regex
crate's leftmost-first semantics:

* a match attempt at a position requires the literal `[[`, then group 1 takes
  the maximal nonempty run of characters other than `[`, `]`, `|` (no shorter
  run can succeed, because the following mandatory `\]\]` and the optional
  group both require `]`, which the run-characters are not);
* group 2 is `(|[\]]+)?` — the `|` inside the group is an unescaped
  alternation whose first branch is empty, so under leftmost-first semantics
  any successful overall match takes the empty branch (the `[\]]+` branch
  would have to be followed by two more `]`, which would also let the empty
  branch succeed first); the group therefore never consumes anything;
* the mandatory `\]\]` must follow immediately;
* on failure the scan advances one character; on success it resumes after the
  consumed `]]`.
-/

/-- Characters allowed inside capture group 1: `[^\[\]|]`. -/
def isLinkChar (c : Char) : Bool := !(c == '[' || c == ']' || c == '|')

/-- The scan loop, written with an explicit step budget so that it is
structurally recursive (and hence evaluates by kernel reduction).  Every step
either consumes the whole match (at least four characters) or advances the
scan position by one, so a budget equal to the input length always suffices
and the budget-exhausted arm is unreachable from `wikiLinkCaptures`. -/
def wikiLinkScan : Nat → List Char → List String
  | _, [] => []
  | 0, _ :: _ => []
  | fuel + 1, '[' :: '[' :: rest =>
    match rest.dropWhile isLinkChar with
    | ']' :: ']' :: rest3 =>
      if (rest.takeWhile isLinkChar).isEmpty then wikiLinkScan fuel ('[' :: rest)
      else String.mk (rest.takeWhile isLinkChar) :: wikiLinkScan fuel rest3
    | _ => wikiLinkScan fuel ('[' :: rest)
  | fuel + 1, _ :: rest => wikiLinkScan fuel rest

/-- Group-1 captures of `\[\[([^\[\]|]+)(|[\]]+)?\]\]` over the input, in
order, as produced by `captures_iter`. -/
def wikiLinkCaptures (l : List Char) : List String := wikiLinkScan l.length l

/-! ### BLAKE2b (RFC 7693), as used through `blake2b_simd::Params` with
`hash_length(16)`, no key.  64-bit words are `Nat` reduced `% 2 ^ 64`. -/

/-- Addition modulo `2 ^ 64`. -/
def add64 (a b : Nat) : Nat := (a + b) % 2 ^ 64

/-- Right rotation of a 64-bit word by `r` bits. -/
def ror64 (x r : Nat) : Nat := (x / 2 ^ r + x % 2 ^ r * 2 ^ (64 - r)) % 2 ^ 64

/-- The BLAKE2b initialization vector (RFC 7693 §2.6). -/
def blake2bIV : List Nat :=
  [0x6a09e667f3bcc908, 0xbb67ae8584caa73b, 0x3c6ef372fe94f82b, 0xa54ff53a5f1d36f1,
   0x510e527fade682d1, 0x9b05688c2b3e6c1f, 0x1f83d9abfb41bd6b, 0x5be0cd19137e2179]

/-- The message schedule SIGMA (RFC 7693 §2.7). -/
def blake2bSigma : List (List Nat) :=
  [[0, 1, 2, 3, 4, 5, 6, 7, 8, 9, 10, 11, 12, 13, 14, 15],
   [14, 10, 4, 8, 9, 15, 13, 6, 1, 12, 0, 2, 11, 7, 5, 3],
   [11, 8, 12, 0, 5, 2, 15, 13, 10, 14, 3, 6, 7, 1, 9, 4],
   [7, 9, 3, 1, 13, 12, 11, 14, 2, 6, 5, 10, 4, 0, 15, 8],
   [9, 0, 5, 7, 2, 4, 10, 15, 14, 1, 11, 12, 6, 8, 3, 13],
   [2, 12, 6, 10, 0, 11, 8, 3, 4, 13, 7, 5, 15, 14, 1, 9],
   [12, 5, 1, 15, 14, 13, 4, 10, 0, 7, 6, 3, 9, 2, 8, 11],
   [13, 11, 7, 14, 12, 1, 3, 9, 5, 0, 15, 4, 8, 6, 2, 10],
   [6, 15, 14, 9, 11, 3, 0, 8, 12, 2, 13, 7, 1, 4, 10, 5],
   [10, 2, 8, 4, 7, 6, 1, 5, 15, 11, 9, 14, 3, 12, 13, 0]]

/-- Word `i` of a working vector represented as a list. -/
def vget (v : List Nat) (i : Nat) : Nat := v.getD i 0

/-- The mixing function G (RFC 7693 §3.1). -/
def bMix (v : List Nat) (a b c d x y : Nat) : List Nat :=
  let va := add64 (add64 (vget v a) (vget v b)) x
  let vd := ror64 (Nat.xor (vget v d) va) 32
  let vc := add64 (vget v c) vd
  let vb := ror64 (Nat.xor (vget v b) vc) 24
  let va2 := add64 (add64 va vb) y
  let vd2 := ror64 (Nat.xor vd va2) 16
  let vc2 := add64 vc vd2
  let vb2 := ror64 (Nat.xor vb vc2) 63
  (((v.set a va2).set b vb2).set c vc2).set d vd2

/-- One round of the compression function: eight G applications on columns
then diagonals, with message words selected by the SIGMA row `s`. -/
def bRound (m v s : List Nat) : List Nat :=
  let v := bMix v 0 4 8 12 (vget m (vget s 0)) (vget m (vget s 1))
  let v := bMix v 1 5 9 13 (vget m (vget s 2)) (vget m (vget s 3))
  let v := bMix v 2 6 10 14 (vget m (vget s 4)) (vget m (vget s 5))
  let v := bMix v 3 7 11 15 (vget m (vget s 6)) (vget m (vget s 7))
  let v := bMix v 0 5 10 15 (vget m (vget s 8)) (vget m (vget s 9))
  let v := bMix v 1 6 11 12 (vget m (vget s 10)) (vget m (vget s 11))
  let v := bMix v 2 7 8 13 (vget m (vget s 12)) (vget m (vget s 13))
  bMix v 3 4 9 14 (vget m (vget s 14)) (vget m (vget s 15))

/-- The sixteen little-endian 64-bit message words of one 128-byte block. -/
def leWords16 (block : List Nat) : List Nat :=
  (List.range 16).map (fun i =>
    (List.range 8).foldr (fun j acc => acc * 0x100 + block.getD (8 * i + j) 0) 0)

/-- The compression function F (RFC 7693 §3.2); `t` is the byte offset
counter, `last` the final-block flag. -/
def bCompress (h block : List Nat) (t : Nat) (last : Bool) : List Nat :=
  let m := leWords16 block
  let v0 := h ++ blake2bIV
  let v1 := v0.set 12 (Nat.xor (vget v0 12) (t % 2 ^ 64))
  let v2 := v1.set 13 (Nat.xor (vget v1 13) (t / 2 ^ 64 % 2 ^ 64))
  let v3 := if last then v2.set 14 (Nat.xor (vget v2 14) (2 ^ 64 - 1)) else v2
  let v := (List.range 12).foldl (fun v r => bRound m v (blake2bSigma.getD (r % 10) [])) v3
  (List.range 8).map (fun i => Nat.xor (vget h i) (Nat.xor (vget v i) (vget v (i + 8))))

/-- Process the message in 128-byte blocks (RFC 7693 §3.3, unkeyed); the last
block is zero-padded.  An empty message still compresses one zero block. -/
def blake2bBlocks (h : List Nat) (t : Nat) (l : List Nat) : List Nat :=
  if l.length ≤ 128 then
    bCompress h (l ++ List.replicate (128 - l.length) 0) (t + l.length) true
  else
    blake2bBlocks (bCompress h (l.take 128) (t + 128) false) (t + 128) (l.drop 128)
termination_by l.length
decreasing_by
  simp only [List.length_drop]
  omega

/-- The eight little-endian bytes of a 64-bit word. -/
def le8 (w : Nat) : List Nat :=
  [w % 0x100, w / 2 ^ 8 % 0x100, w / 2 ^ 16 % 0x100, w / 2 ^ 24 % 0x100,
   w / 2 ^ 32 % 0x100, w / 2 ^ 40 % 0x100, w / 2 ^ 48 % 0x100, w / 2 ^ 56 % 0x100]

/-- The 64-byte little-endian serialization of the state vector. -/
def blake2bDigestBytes (h : List Nat) : List Nat :=
  le8 (vget h 0) ++ le8 (vget h 1) ++ le8 (vget h 2) ++ le8 (vget h 3) ++
  le8 (vget h 4) ++ le8 (vget h 5) ++ le8 (vget h 6) ++ le8 (vget h 7)

/-- BLAKE2b with digest length `nn` bytes and no key: the parameter block
mixes `0x01010000 ^ nn` into `h[0]`, and the digest is the first `nn` bytes
of the final state. -/
def blake2b (nn : Nat) (input : List Nat) : List Nat :=
  (blake2bDigestBytes (blake2bBlocks
    (blake2bIV.set 0 (Nat.xor (vget blake2bIV 0) (Nat.xor 0x01010000 nn))) 0 input)).take nn

/-! ### Identifiers -/

/-- A 128-bit identifier as the big-endian value of a 16-byte slice. -/
def bytesBE (bytes : List Nat) : Nat := bytes.foldl (fun a b => a * 0x100 + b) 0

/-- `Uuid::from_slice`: succeeds exactly when the slice is 16 bytes long. -/
def uuidFromSlice (bytes : List Nat) : Option Nat :=
  if bytes.length = 16 then some (bytesBE bytes) else none

/-- `article_uuid` (`util.rs` / `common/lib.rs`) before the `.unwrap()`:
hash the name bytes with BLAKE2b-16 and coerce to an identifier. -/
def articleUuid? (nameBytes : List Nat) : Option Nat :=
  uuidFromSlice (blake2b 16 nameBytes)

/-- `article_uuid` after the `.unwrap()`; the `getD 0` default is the
panic branch, shown unreachable by the safety theorem below. -/
def articleUuidBytes (nameBytes : List Nat) : Nat := (articleUuid? nameBytes).getD 0

/-- `article_uuid` on a string name (`name.as_bytes()`). -/
def articleUuid (name : String) : Nat := articleUuidBytes (utf8Encode name)

/-- The RFC 4122 version-1 UUID layout built by `Uuid::new_v1`: `ticks` is
the 60-bit timestamp (100 ns units), `clockSeq` the 14-bit clock sequence,
`node` the 48-bit node id (`NODE_ID` is all zeroes in `indexer.rs`). -/
def uuidV1 (ticks clockSeq node : Nat) : Nat :=
  let timeLow := ticks % 2 ^ 32
  let timeMid := ticks / 2 ^ 32 % 2 ^ 16
  let timeHiVersion := ticks / 2 ^ 48 % 2 ^ 12 + 0x1000
  let csLow := clockSeq % 2 ^ 8
  let csHi := clockSeq / 2 ^ 8 % 2 ^ 6 + 0x80
  ((((timeLow * 2 ^ 16 + timeMid) * 2 ^ 16 + timeHiVersion) * 2 ^ 8 + csHi) * 2 ^ 8 + csLow)
    * 2 ^ 48 + node % 2 ^ 48

/-! ### Bulk-insert items (`indradb::BulkInsertItem`) -/

/-- The three write-item kinds submitted to the store's bulk API. -/
inductive BulkInsertItem where
  | vertex (id : Nat) (t : String)
  | vertexProperty (id : Nat) (name : String) (value : String)
  | edge (outboundId : Nat) (t : String) (inboundId : Nat)
deriving DecidableEq

/-- `REQUEST_BUFFER_SIZE` (identical in `indexer.rs` and `crawler.rs`). -/
def REQUEST_BUFFER_SIZE : Nat := 10000

namespace Indexer

/-- `ArticleMap` of `indexer.rs`: a name-to-id table and an id-to-ids
adjacency table.  `BTreeMap`/`BTreeSet` are embedded as lists with unique
keys; only lookup/iteration contents matter to the claims, not order. -/
structure ArticleMap where
  uuids : List (String × Nat)
  links : List (Nat × List Nat)
deriving DecidableEq

/-- `ArticleMap::default()`. -/
def ArticleMap.empty : ArticleMap := ⟨[], []⟩

/-- An `ArticleMap` together with the wall clock read by `Utc::now()` inside
`insert_article`.  Each fresh UUID consumes one tick; the tick count is the
explicit-state embedding of the strictly advancing pair (timestamp,
`Context` counter) that `Timestamp::from_unix(&CONTEXT, ..)` produces, so two
runs started at different wall-clock times have different initial ticks. -/
structure ClockedMap where
  map : ArticleMap
  clock : Nat
deriving DecidableEq

/-- `ArticleMap::insert_article` of `indexer.rs`: return the memoized id if
the name is present, otherwise generate a fresh time-ordered UUID v1
(`Uuid::new_v1(ts, &NODE_ID)` with `NODE_ID = [0; 6]`). -/
def insertArticle (s : ClockedMap) (name : String) : Nat × ClockedMap :=
  match s.map.uuids.lookup name with
  | some uuid => (uuid, s)
  | none =>
    let uuid := uuidV1 s.clock 0 0
    (uuid, ⟨⟨(name, uuid) :: s.map.uuids, s.map.links⟩, s.clock + 1⟩)

/-- `links.entry(src).or_insert_with(BTreeSet::default).insert(dst)`:
set-insert `dst` into the adjacency entry of `src`. -/
def addLink (links : List (Nat × List Nat)) (src dst : Nat) : List (Nat × List Nat) :=
  match links with
  | [] => [(src, [dst])]
  | (k, ds) :: rest =>
    if k = src then (k, if ds.contains dst then ds else ds ++ [dst]) :: rest
    else (k, ds) :: addLink rest src dst

/-- `ArticleMap::insert_link`. -/
def insertLink (s : ClockedMap) (src dst : Nat) : ClockedMap :=
  ⟨⟨s.map.uuids, addLink s.map.links src dst⟩, s.clock⟩

/-- `ArchiveReadState` of `indexer.rs`. -/
inductive ArchiveReadState where
  | Ignore
  | Page
  | MostRecentRevision
  | Title
  | Text
deriving DecidableEq

/-- One `quick_xml` event as consumed by `read_archive` (`trim_text(true)` is
applied by the reader, so `text` carries the already-trimmed byte payload).
`other` stands for every event kind the state machine's catch-all arm
ignores; `readErr` is an error returned by `read_event` itself, propagated by
`?`; `eof` is `Event::Eof`. -/
inductive XmlEvent where
  | start (name : List Nat)
  | endTag (name : List Nat)
  | text (bytes : List Nat)
  | other
  | eof
  | readErr
deriving DecidableEq

/-- `"page".as_bytes()`. -/
def pageTag : List Nat := utf8Encode "page"

/-- `"title".as_bytes()`. -/
def titleTag : List Nat := utf8Encode "title"

/-- `"text".as_bytes()`. -/
def textTag : List Nat := utf8Encode "text"

/-- `"revision".as_bytes()`. -/
def revisionTag : List Nat := utf8Encode "revision"

/-- The loop state of `read_archive`: the match state, the `src` and
`content` accumulators, and the article map with its clock. -/
structure Machine where
  state : ArchiveReadState
  src : String
  content : String
  cm : ClockedMap
deriving DecidableEq

/-- Errors `read_archive` can propagate: invalid UTF-8 from
`str::from_utf8(e)?`, or a reader error from `reader.read_event(&mut buf)?`. -/
inductive ParseError where
  | utf8Error
  | readError
deriving DecidableEq

/-- Result of one loop iteration: continue with a new machine state, or
break out of the loop returning the article map. -/
inductive StepRes where
  | next (m : Machine)
  | halt (am : ArticleMap)
deriving DecidableEq

/-- The `(MostRecentRevision, Event::End(revision))` arm body: trim the
content, resolve the source title once, then insert one article and one link
per regex capture.  Returns the updated map (the debug assertions compile
away in release builds and are not modelled). -/
def closeRecord (cm : ClockedMap) (src content : String) : ClockedMap :=
  let r := insertArticle cm src
  (wikiLinkCaptures content.data).foldl
    (fun cm dst =>
      let r2 := insertArticle cm dst
      insertLink r2.2 r.1 r2.1) r.2

/-- One iteration of the `read_archive` match, arm for arm.  Guards that fail
(`e.name()` not the guarded tag) fall through to the catch-all, which keeps
the state. -/
def stepEvent (m : Machine) (e : XmlEvent) : Except ParseError StepRes :=
  match m.state, e with
  | _, .readErr => .error .readError
  | _, .eof => .ok (.halt m.cm.map)
  | .Ignore, .start n =>
    if n == pageTag then .ok (.next ⟨.Page, "", "", m.cm⟩) else .ok (.next m)
  | .Page, .start n =>
    if n == revisionTag then .ok (.next ⟨.MostRecentRevision, m.src, m.content, m.cm⟩)
    else if n == titleTag then .ok (.next ⟨.Title, m.src, m.content, m.cm⟩)
    else .ok (.next m)
  | .MostRecentRevision, .start n =>
    if n == textTag then .ok (.next ⟨.Text, m.src, m.content, m.cm⟩) else .ok (.next m)
  | .MostRecentRevision, .endTag n =>
    if n == revisionTag then
      let content := trimString m.content
      .ok (.next ⟨.Ignore, m.src, content, closeRecord m.cm m.src content⟩)
    else .ok (.next m)
  | .Title, .text bs =>
    match utf8Decode? bs with
    | none => .error .utf8Error
    | some cs =>
      let src := m.src ++ String.mk cs
      if isBlacklisted src then .ok (.next ⟨.Ignore, src, m.content, m.cm⟩)
      else .ok (.next ⟨.Title, src, m.content, m.cm⟩)
  | .Title, .endTag n =>
    if n == titleTag then .ok (.next ⟨.Page, m.src, m.content, m.cm⟩) else .ok (.next m)
  | .Text, .text bs =>
    match utf8Decode? bs with
    | none => .error .utf8Error
    | some cs =>
      let content := m.content ++ String.mk cs
      if startsWithStr content redirectMarker then .ok (.next ⟨.Ignore, m.src, content, m.cm⟩)
      else .ok (.next ⟨.Text, m.src, content, m.cm⟩)
  | .Text, .endTag n =>
    if n == textTag then .ok (.next ⟨.MostRecentRevision, m.src, m.content, m.cm⟩)
    else .ok (.next m)
  | _, _ => .ok (.next m)

/-- The `read_archive` loop over the event stream.  End of the list means
`read_event` returns `Event::Eof`, which is fed through the match like every
other event; the `.next` fallback in the empty case is unreachable because
the Eof arm always breaks. -/
def readLoop : Machine → List XmlEvent → Except ParseError ArticleMap
  | m, [] =>
    match stepEvent m .eof with
    | .error err => .error err
    | .ok (.halt am) => .ok am
    | .ok (.next m2) => .ok m2.cm.map
  | m, e :: es =>
    match stepEvent m e with
    | .error err => .error err
    | .ok (.halt am) => .ok am
    | .ok (.next m2) => readLoop m2 es

/-- The initial loop state of `read_archive`; `clock0` is the wall-clock
tick at which the run starts. -/
def initMachine (clock0 : Nat) : Machine := ⟨.Ignore, "", "", ⟨ArticleMap.empty, clock0⟩⟩

/-- `read_archive` of `indexer.rs` on a decompressed event stream. -/
def readArchive (clock0 : Nat) (events : List XmlEvent) : Except ParseError ArticleMap :=
  readLoop (initMachine clock0) events

/-- The parsed map of a successful run (empty on error; used only to state
facts about concrete successful runs). -/
def parsedMap (clock0 : Nat) (events : List XmlEvent) : ArticleMap :=
  match readArchive clock0 events with
  | .ok am => am
  | .error _ => ArticleMap.empty

/-- `BulkInserter` of `indexer.rs`: the producer-side buffer plus the
sequence of batch buffers handed off to the bounded channel so far (each is
consumed by exactly one worker; `flush` closes the channel and awaits all
workers, so the handed-off sequence is exactly what reaches the store). -/
structure BulkInserter where
  sent : List (List BulkInsertItem)
  buf : List BulkInsertItem
deriving DecidableEq

/-- `BulkInserter::new`: empty buffer, nothing handed off. -/
def BulkInserter.new : BulkInserter := ⟨[], []⟩

/-- `BulkInserter::push`: append to the buffer; once it reaches
`REQUEST_BUFFER_SIZE`, hand the whole buffer off and start a fresh one. -/
def BulkInserter.push (s : BulkInserter) (item : BulkInsertItem) : BulkInserter :=
  if REQUEST_BUFFER_SIZE ≤ (s.buf ++ [item]).length then ⟨s.sent ++ [s.buf ++ [item]], []⟩
  else ⟨s.sent, s.buf ++ [item]⟩

/-- A sequence of `push` calls. -/
def BulkInserter.pushAll (s : BulkInserter) (items : List BulkInsertItem) : BulkInserter :=
  items.foldl BulkInserter.push s

/-- `BulkInserter::flush` of `indexer.rs`: hand off the remaining partial
buffer if nonempty, close the channel, await every worker.  The value is the
full sequence of batches submitted to (and completed by) the store. -/
def BulkInserter.flush (s : BulkInserter) : List (List BulkInsertItem) :=
  if s.buf.isEmpty then s.sent else s.sent ++ [s.buf]

/-- The item stream of `insert_articles`: for each `(name, uuid)` entry one
entity-create (`Vertex`, type `article`) immediately followed by its
property-set (`VertexProperty`, property `name`). -/
def entityItems (am : ArticleMap) : List BulkInsertItem :=
  am.uuids.flatMap (fun p =>
    [BulkInsertItem.vertex p.2 "article", BulkInsertItem.vertexProperty p.2 "name" p.1])

/-- The batches submitted by `insert_articles`: push every entity item, then
flush. -/
def insertArticlesBatches (am : ArticleMap) : List (List BulkInsertItem) :=
  (BulkInserter.new.pushAll (entityItems am)).flush

end Indexer

namespace Crawler

/-- `ArticleMap` of `crawler.rs`: both directions of the name/id table plus
the adjacency table (the `hasher` field is the fixed BLAKE2b-16 parameter
set, a constant). -/
structure ArticleMap where
  uuidsToNames : List (Nat × String)
  namesToUuids : List (String × Nat)
  links : List (Nat × List Nat)
deriving DecidableEq

/-- `ArticleMap::default()`. -/
def ArticleMap.empty : ArticleMap := ⟨[], [], []⟩

/-- `ArticleMap::insert_article` of `crawler.rs`: return the memoized id if
present, otherwise derive the id from the BLAKE2b-16 hash of the name. -/
def insertArticle (m : ArticleMap) (name : String) : Nat × ArticleMap :=
  match m.namesToUuids.lookup name with
  | some uuid => (uuid, m)
  | none =>
    let uuid := articleUuid name
    (uuid, ⟨(uuid, name) :: m.uuidsToNames, (name, uuid) :: m.namesToUuids, m.links⟩)

/-- A run: any sequence of `insert_article` calls from a fresh map (this is
how every reachable `names_to_uuids` table arises, since `insert_link` does
not touch it). -/
def runInserts (names : List String) : ArticleMap :=
  names.foldl (fun m nm => (insertArticle m nm).2) ArticleMap.empty

/-- `BulkInserter` of `crawler.rs` (and of `main.rs`, `crawler/main.rs`,
`inserter/src/main.rs`): a producer-side buffer plus the queue of bulk-insert
requests already sent (`promises`); the `PROMISE_BUFFER_SIZE` window in
`push` only throttles when requests are awaited, not which items are sent. -/
structure BulkInserter where
  submitted : List (List BulkInsertItem)
  buf : List BulkInsertItem
deriving DecidableEq

/-- `BulkInserter::new`. -/
def BulkInserter.new : BulkInserter := ⟨[], []⟩

/-- `BulkInserter::push` of `crawler.rs`: append to the buffer; once it
reaches `REQUEST_BUFFER_SIZE`, send the buffer as a bulk-insert request and
start a fresh one. -/
def BulkInserter.push (s : BulkInserter) (item : BulkInsertItem) : BulkInserter :=
  if REQUEST_BUFFER_SIZE ≤ (s.buf ++ [item]).length then ⟨s.submitted ++ [s.buf ++ [item]], []⟩
  else ⟨s.submitted, s.buf ++ [item]⟩

/-- A sequence of `push` calls. -/
def BulkInserter.pushAll (s : BulkInserter) (items : List BulkInsertItem) : BulkInserter :=
  items.foldl BulkInserter.push s

/-- `BulkInserter::flush` of `crawler.rs`: await the queued promises and
return.  The remaining partial `self.buf` is never sent — the value is only
what was already submitted by `push`. -/
def BulkInserter.flush (s : BulkInserter) : List (List BulkInsertItem) :=
  s.submitted

end Crawler

/-! ## Bulk-inserter lemmas -/

namespace Indexer

theorem push_buf_length_lt (s : BulkInserter) (i : BulkInsertItem)
    (h : s.buf.length < REQUEST_BUFFER_SIZE) :
    (s.push i).buf.length < REQUEST_BUFFER_SIZE := by
  unfold BulkInserter.push
  split
  · simp [REQUEST_BUFFER_SIZE]
  · next hle =>
    simp only [List.length_append, List.length_cons, List.length_nil] at hle ⊢
    omega

theorem pushAll_buf_length_lt (items : List BulkInsertItem) :
    ∀ s : BulkInserter, s.buf.length < REQUEST_BUFFER_SIZE →
      (s.pushAll items).buf.length < REQUEST_BUFFER_SIZE := by
  induction items with
  | nil => intro s h; simpa [BulkInserter.pushAll] using h
  | cons i rest ih =>
    intro s h
    have := ih (s.push i) (push_buf_length_lt s i h)
    simpa [BulkInserter.pushAll] using this

theorem push_flatten (s : BulkInserter) (i : BulkInsertItem) :
    (s.push i).sent.flatten ++ (s.push i).buf = s.sent.flatten ++ s.buf ++ [i] := by
  unfold BulkInserter.push
  split <;> simp

theorem pushAll_flatten (items : List BulkInsertItem) :
    ∀ s : BulkInserter,
      (s.pushAll items).sent.flatten ++ (s.pushAll items).buf = s.sent.flatten ++ s.buf ++ items := by
  induction items with
  | nil => intro s; simp [BulkInserter.pushAll]
  | cons i rest ih =>
    intro s
    have h1 := ih (s.push i)
    have h2 := push_flatten s i
    have h3 : (s.pushAll (i :: rest)) = ((s.push i).pushAll rest) := by
      simp [BulkInserter.pushAll]
    rw [h3, h1, h2]
    simp

theorem flush_flatten (s : BulkInserter) :
    s.flush.flatten = s.sent.flatten ++ s.buf := by
  unfold BulkInserter.flush
  split
  · next he => rw [List.isEmpty_iff.mp he]; simp
  · simp

theorem pushAll_counts (items : List BulkInsertItem) :
    ∀ s : BulkInserter, s.buf.length < REQUEST_BUFFER_SIZE →
      (s.pushAll items).sent.length
          = s.sent.length + (s.buf.length + items.length) / REQUEST_BUFFER_SIZE
      ∧ (s.pushAll items).buf.length = (s.buf.length + items.length) % REQUEST_BUFFER_SIZE
      ∧ ∀ b ∈ (s.pushAll items).sent, b ∈ s.sent ∨ b.length = REQUEST_BUFFER_SIZE := by
  simp only [REQUEST_BUFFER_SIZE]
  induction items with
  | nil =>
    intro s h
    simp only [BulkInserter.pushAll, List.foldl_nil, List.length_nil]
    exact ⟨by omega, by omega, fun b hb => Or.inl hb⟩
  | cons i rest ih =>
    intro s h
    have hstep : (s.pushAll (i :: rest)) = ((s.push i).pushAll rest) := by
      simp [BulkInserter.pushAll]
    rw [hstep]
    unfold BulkInserter.push
    simp only [REQUEST_BUFFER_SIZE]
    split
    · next hle =>
      simp only [List.length_append, List.length_cons, List.length_nil] at hle
      have ih2 := ih ⟨s.sent ++ [s.buf ++ [i]], []⟩ (by simp)
      dsimp only at ih2
      obtain ⟨ih21, ih22, ih23⟩ := ih2
      simp only [List.length_append, List.length_cons, List.length_nil] at ih21 ih22
      refine ⟨?_, ?_, ?_⟩
      · simp only [List.length_cons]
        omega
      · simp only [List.length_cons]
        omega
      · intro b hb
        rcases ih23 b hb with hmem | hlen
        · rcases List.mem_append.mp hmem with hmem2 | hmem2
          · exact Or.inl hmem2
          · refine Or.inr ?_
            rw [List.mem_singleton.mp hmem2]
            simp only [List.length_append, List.length_cons, List.length_nil, REQUEST_BUFFER_SIZE]
            omega
        · exact Or.inr hlen
    · next hle =>
      simp only [List.length_append, List.length_cons, List.length_nil] at hle
      have ih2 := ih ⟨s.sent, s.buf ++ [i]⟩ (by
        simp only [List.length_append, List.length_cons, List.length_nil]
        omega)
      dsimp only at ih2
      obtain ⟨ih21, ih22, ih23⟩ := ih2
      simp only [List.length_append, List.length_cons, List.length_nil] at ih21 ih22
      refine ⟨?_, ?_, ?_⟩
      · simp only [List.length_cons]
        omega
      · simp only [List.length_cons]
        omega
      · exact ih23

theorem map_length_eq_replicate {α : Type} (n : Nat) :
    ∀ L : List (List α), (∀ b ∈ L, b.length = n) →
      L.map List.length = List.replicate L.length n := by
  intro L
  induction L with
  | nil => intro _; rfl
  | cons b rest ih =>
    intro h
    simp only [List.map_cons, List.length_cons, List.replicate_succ]
    rw [h b (List.mem_cons_self b rest), ih (fun x hx => h x (List.mem_cons_of_mem b hx))]

theorem flatMap_entity_pair_length (l : List (String × Nat)) :
    (l.flatMap (fun p =>
      [BulkInsertItem.vertex p.2 "article", BulkInsertItem.vertexProperty p.2 "name" p.1])).length
      = 2 * l.length := by
  induction l with
  | nil => rfl
  | cons p rest ih =>
    simp only [List.flatMap_cons, List.length_append, List.length_cons, List.length_nil, ih,
      List.length_cons]
    omega

theorem entityItems_length (am : ArticleMap) :
    (entityItems am).length = 2 * am.uuids.length :=
  flatMap_entity_pair_length am.uuids

theorem insertArticlesBatches_sizes (am : ArticleMap)
    (h : 2 * am.uuids.length % REQUEST_BUFFER_SIZE = 0) :
    (insertArticlesBatches am).map List.length
      = List.replicate (2 * am.uuids.length / REQUEST_BUFFER_SIZE) REQUEST_BUFFER_SIZE := by
  have hnew : (BulkInserter.new : BulkInserter).buf.length < REQUEST_BUFFER_SIZE := by
    simp [BulkInserter.new, REQUEST_BUFFER_SIZE]
  have hc := pushAll_counts (entityItems am) BulkInserter.new hnew
  have hbuf0 : (BulkInserter.new.pushAll (entityItems am)).buf.length = 0 := by
    rw [hc.2.1]
    simp only [BulkInserter.new, List.length_nil, Nat.zero_add, entityItems_length]
    exact h
  have hbufnil : (BulkInserter.new.pushAll (entityItems am)).buf = [] :=
    List.length_eq_zero.mp hbuf0
  have hflush : insertArticlesBatches am = (BulkInserter.new.pushAll (entityItems am)).sent := by
    unfold insertArticlesBatches BulkInserter.flush
    rw [hbufnil]
    simp
  rw [hflush]
  have hall : ∀ b ∈ (BulkInserter.new.pushAll (entityItems am)).sent,
      b.length = REQUEST_BUFFER_SIZE := by
    intro b hb
    rcases hc.2.2 b hb with hmem | hlen
    · simp [BulkInserter.new] at hmem
    · exact hlen
  rw [map_length_eq_replicate REQUEST_BUFFER_SIZE _ hall, hc.1]
  simp only [BulkInserter.new, List.length_nil, Nat.zero_add, entityItems_length]

/-! ## Pairing of entity items within batches -/

/-- A list of write items that is a concatenation of
entity-create/property-set pairs, each pair about one id: the shape every
entity batch must have for the vertex and its `name` property never to be
split across a batch boundary. -/
inductive IsPairList : List BulkInsertItem → Prop
  | nil : IsPairList []
  | cons (id : Nat) (t prop value : String) (rest : List BulkInsertItem)
      (h : IsPairList rest) :
      IsPairList (BulkInsertItem.vertex id t :: BulkInsertItem.vertexProperty id prop value :: rest)

theorem isPairList_take {l : List BulkInsertItem} (h : IsPairList l) :
    ∀ k : Nat, IsPairList (l.take (2 * k)) := by
  induction h with
  | nil => intro k; simp only [List.take_nil]; exact IsPairList.nil
  | cons id t prop value rest hrest ih =>
    intro k
    cases k with
    | zero => simpa using IsPairList.nil
    | succ k =>
      have h2 : 2 * (k + 1) = 2 * k + 1 + 1 := by omega
      rw [h2, List.take_succ_cons, List.take_succ_cons]
      exact IsPairList.cons id t prop value _ (ih k)

theorem isPairList_drop {l : List BulkInsertItem} (h : IsPairList l) :
    ∀ k : Nat, IsPairList (l.drop (2 * k)) := by
  induction h with
  | nil => intro k; simp only [List.drop_nil]; exact IsPairList.nil
  | cons id t prop value rest hrest ih =>
    intro k
    cases k with
    | zero => simpa using IsPairList.cons id t prop value rest hrest
    | succ k =>
      have h2 : 2 * (k + 1) = 2 * k + 1 + 1 := by omega
      rw [h2, List.drop_succ_cons, List.drop_succ_cons]
      exact ih k

theorem entityItems_isPairList (l : List (String × Nat)) :
    IsPairList (l.flatMap (fun p =>
      [BulkInsertItem.vertex p.2 "article", BulkInsertItem.vertexProperty p.2 "name" p.1])) := by
  induction l with
  | nil => exact IsPairList.nil
  | cons p rest ih =>
    simp only [List.flatMap_cons, List.cons_append, List.nil_append]
    exact IsPairList.cons p.2 "article" "name" p.1 _ ih

theorem pushAll_isPairList (items : List BulkInsertItem) :
    ∀ s : BulkInserter, s.buf.length < REQUEST_BUFFER_SIZE →
      IsPairList (s.buf ++ items) →
      (∀ b ∈ s.sent, IsPairList b) →
      (∀ b ∈ (s.pushAll items).sent, IsPairList b) ∧ IsPairList (s.pushAll items).buf := by
  induction items with
  | nil =>
    intro s _ hpair hsent
    simp only [BulkInserter.pushAll, List.foldl_nil]
    exact ⟨hsent, by simpa using hpair⟩
  | cons i rest ih =>
    intro s hlt hpair hsent
    have hstep : (s.pushAll (i :: rest)) = ((s.push i).pushAll rest) := by
      simp [BulkInserter.pushAll]
    rw [hstep]
    have hpair2 : IsPairList ((s.buf ++ [i]) ++ rest) := by
      rw [List.append_assoc, List.singleton_append]
      exact hpair
    unfold BulkInserter.push
    split
    · next hle =>
      simp only [List.length_append, List.length_cons, List.length_nil] at hle
      have hfull : (s.buf ++ [i]).length = REQUEST_BUFFER_SIZE := by
        simp only [List.length_append, List.length_cons, List.length_nil,
          REQUEST_BUFFER_SIZE] at hlt hle ⊢
        omega
      have hRB : REQUEST_BUFFER_SIZE = 2 * 5000 := by simp [REQUEST_BUFFER_SIZE]
      have hbufpair : IsPairList (s.buf ++ [i]) := by
        have := isPairList_take hpair2 5000
        rw [← hRB, ← hfull, List.take_left] at this
        exact this
      have hrestpair : IsPairList rest := by
        have := isPairList_drop hpair2 5000
        rw [← hRB, ← hfull, List.drop_left] at this
        exact this
      refine ih ⟨s.sent ++ [s.buf ++ [i]], []⟩ (by simp [REQUEST_BUFFER_SIZE])
        (by simpa using hrestpair) ?_
      intro b hb
      rcases List.mem_append.mp hb with hmem | hmem
      · exact hsent b hmem
      · rw [List.mem_singleton.mp hmem]; exact hbufpair
    · next hle =>
      simp only [List.length_append, List.length_cons, List.length_nil] at hle
      refine ih ⟨s.sent, s.buf ++ [i]⟩ (by
          simp only [List.length_append, List.length_cons, List.length_nil]
          simp only [REQUEST_BUFFER_SIZE] at hle ⊢
          omega)
        hpair2 hsent

end Indexer

/-! ## `insert_article` lemmas -/

namespace Indexer

theorem insertArticle_lookup_self (s : ClockedMap) (name : String) :
    (insertArticle s name).2.map.uuids.lookup name = some (insertArticle s name).1 := by
  unfold insertArticle
  cases h0 : s.map.uuids.lookup name with
  | some u => simp [h0]
  | none => simp [h0, List.lookup_cons]

theorem insertArticle_second_call (s : ClockedMap) (name : String) :
    insertArticle (insertArticle s name).2 name = insertArticle s name := by
  cases h0 : s.map.uuids.lookup name with
  | some u =>
    have h1 : insertArticle s name = (u, s) := by unfold insertArticle; simp [h0]
    rw [h1]
    exact h1
  | none =>
    have h1 : insertArticle s name
        = (uuidV1 s.clock 0 0,
           ⟨⟨(name, uuidV1 s.clock 0 0) :: s.map.uuids, s.map.links⟩, s.clock + 1⟩) := by
      unfold insertArticle; simp [h0]
    rw [h1]
    unfold insertArticle
    simp [List.lookup_cons]

theorem insertArticle_lookup_mono (s : ClockedMap) (name n : String) (u : Nat)
    (h : s.map.uuids.lookup n = some u) :
    (insertArticle s name).2.map.uuids.lookup n = some u := by
  unfold insertArticle
  cases h0 : s.map.uuids.lookup name with
  | some w => simpa using h
  | none =>
    have hne : (n == name) = false := by
      cases hnb : n == name
      · rfl
      · rw [eq_of_beq hnb] at h
        rw [h0] at h
        cases h
    simp [List.lookup_cons, hne, h]

theorem insertArticle_links_eq (s : ClockedMap) (name : String) :
    (insertArticle s name).2.map.links = s.map.links := by
  unfold insertArticle
  cases h0 : s.map.uuids.lookup name <;> simp [h0]

theorem addLink_mem (src dst : Nat) :
    ∀ (links : List (Nat × List Nat)) (u : Nat) (ds : List Nat),
      (u, ds) ∈ addLink links src dst → (∃ ds0, (u, ds0) ∈ links) ∨ u = src := by
  intro links
  induction links with
  | nil =>
    intro u ds h
    simp only [addLink, List.mem_singleton] at h
    injection h with hu _
    exact Or.inr hu
  | cons p rest ih =>
    intro u ds h
    obtain ⟨k, ds1⟩ := p
    unfold addLink at h
    by_cases hk : k = src
    · simp only [hk, if_pos rfl] at h
      rcases List.mem_cons.mp h with hhead | htail
      · injection hhead with hu _
        exact Or.inr hu
      · exact Or.inl ⟨ds, List.mem_cons_of_mem _ htail⟩
    · simp only [if_neg hk] at h
      rcases List.mem_cons.mp h with hhead | htail
      · injection hhead with hu hds
        refine Or.inl ⟨ds1, ?_⟩
        rw [hu]
        exact List.mem_cons_self _ _
      · rcases ih u ds htail with ⟨ds0, hds0⟩ | heq
        · exact Or.inl ⟨ds0, List.mem_cons_of_mem _ hds0⟩
        · exact Or.inr heq

/-! ## Parser invariant: every edge source is a non-blacklisted name -/

/-- In every state other than `Ignore`, the accumulated `src` has passed the
blacklist check (or is still empty). -/
abbrev SrcOk (m : Machine) : Prop :=
  m.state ≠ ArchiveReadState.Ignore → isBlacklisted m.src = false

/-- Every adjacency key of `links` is the id of some name in `uuids` that is
not blacklisted. -/
def LinksOk (am : ArticleMap) : Prop :=
  ∀ u ds, (u, ds) ∈ am.links →
    ∃ n, am.uuids.lookup n = some u ∧ isBlacklisted n = false

theorem isBlacklisted_empty : isBlacklisted "" = false := by decide

theorem insertArticle_linksOk (s : ClockedMap) (name : String) (h : LinksOk s.map) :
    LinksOk (insertArticle s name).2.map := by
  intro u ds hmem
  rw [insertArticle_links_eq] at hmem
  obtain ⟨n, hn, hb⟩ := h u ds hmem
  exact ⟨n, insertArticle_lookup_mono s name n u hn, hb⟩

theorem foldCaptures_ok (srcUuid : Nat) (src : String)
    (hsrc : isBlacklisted src = false) :
    ∀ (dsts : List String) (cm : ClockedMap),
      LinksOk cm.map → cm.map.uuids.lookup src = some srcUuid →
      LinksOk ((dsts.foldl (fun cm dst =>
          let r2 := insertArticle cm dst
          insertLink r2.2 srcUuid r2.1) cm).map)
      ∧ ((dsts.foldl (fun cm dst =>
          let r2 := insertArticle cm dst
          insertLink r2.2 srcUuid r2.1) cm).map.uuids.lookup src = some srcUuid) := by
  intro dsts
  induction dsts with
  | nil => intro cm hok hlook; exact ⟨hok, hlook⟩
  | cons d rest ih =>
    intro cm hok hlook
    simp only [List.foldl_cons]
    apply ih
    · intro u ds hmem
      have hmem2 : (u, ds) ∈ addLink (insertArticle cm d).2.map.links srcUuid
          (insertArticle cm d).1 := hmem
      rcases addLink_mem srcUuid (insertArticle cm d).1 _ u ds hmem2 with ⟨ds0, hds0⟩ | heq
      · rw [insertArticle_links_eq] at hds0
        obtain ⟨n, hn, hb⟩ := hok u ds0 hds0
        exact ⟨n, insertArticle_lookup_mono cm d n u hn, hb⟩
      · rw [heq]
        exact ⟨src, insertArticle_lookup_mono cm d src srcUuid hlook, hsrc⟩
    · exact insertArticle_lookup_mono cm d src srcUuid hlook

theorem closeRecord_linksOk (cm : ClockedMap) (src content : String)
    (hsrc : isBlacklisted src = false) (hok : LinksOk cm.map) :
    LinksOk (closeRecord cm src content).map := by
  unfold closeRecord
  exact (foldCaptures_ok (insertArticle cm src).1 src hsrc (wikiLinkCaptures content.data)
    (insertArticle cm src).2
    (insertArticle_linksOk cm src hok)
    (insertArticle_lookup_self cm src)).1

theorem stepEvent_next_preserves (m : Machine) (e : XmlEvent)
    (hsrc : SrcOk m) (hlinks : LinksOk m.cm.map) :
    ∀ m2, stepEvent m e = Except.ok (StepRes.next m2) → SrcOk m2 ∧ LinksOk m2.cm.map := by
  intro m2 hstep
  obtain ⟨st, src, content, cm⟩ := m
  cases st <;> cases e <;> simp only [stepEvent] at hstep <;>
    first
      | (cases hstep <;> exact ⟨hsrc, hlinks⟩)
      | ((split at hstep <;> (try split at hstep)) <;> (cases hstep <;>
          first
            | exact ⟨hsrc, hlinks⟩
            | exact ⟨fun _ => isBlacklisted_empty, hlinks⟩
            | exact ⟨fun hne => absurd rfl hne, hlinks⟩
            | exact ⟨fun _ => hsrc (by simp), hlinks⟩
            | exact ⟨fun hne => absurd rfl hne,
                closeRecord_linksOk cm src (trimString content) (hsrc (by simp)) hlinks⟩
            | (rename_i hcond; exact ⟨fun _ => by simpa using hcond, hlinks⟩)))

theorem stepEvent_halt_map (m : Machine) (e : XmlEvent) :
    ∀ am, stepEvent m e = Except.ok (StepRes.halt am) → am = m.cm.map := by
  intro am hstep
  obtain ⟨st, src, content, cm⟩ := m
  cases st <;> cases e <;> simp only [stepEvent] at hstep <;>
    first
      | (cases hstep <;> rfl)
      | ((split at hstep <;> (try split at hstep)) <;> (cases hstep <;> rfl))

theorem readLoop_nil (m : Machine) : readLoop m [] = Except.ok m.cm.map := by
  obtain ⟨st, src, content, cm⟩ := m
  cases st <;> rfl

theorem readLoop_linksOk :
    ∀ (events : List XmlEvent) (m : Machine), SrcOk m → LinksOk m.cm.map →
      ∀ am, readLoop m events = Except.ok am → LinksOk am := by
  intro events
  induction events with
  | nil =>
    intro m hs hl am h
    rw [readLoop_nil] at h
    injection h with h2
    rw [← h2]
    exact hl
  | cons e es ih =>
    intro m hs hl am h
    simp only [readLoop] at h
    cases hstep : stepEvent m e with
    | error err => rw [hstep] at h; cases h
    | ok r =>
      rw [hstep] at h
      cases r with
      | halt am2 =>
        injection h with h2
        rw [← h2, stepEvent_halt_map m e am2 hstep]
        exact hl
      | next m2 =>
        obtain ⟨hs2, hl2⟩ := stepEvent_next_preserves m e hs hl m2 hstep
        exact ih m2 hs2 hl2 am h

end Indexer

/-! ## Crawler `insert_article` purity lemmas -/

namespace Crawler

/-- A sequence of `insert_article` calls from an arbitrary map. -/
def runFrom (m : ArticleMap) (names : List String) : ArticleMap :=
  names.foldl (fun m nm => (insertArticle m nm).2) m

theorem runInserts_eq_runFrom (names : List String) :
    runInserts names = runFrom ArticleMap.empty names := rfl

/-- Every memoized id is the content hash of its name. -/
def GoodMap (m : ArticleMap) : Prop :=
  ∀ k v, m.namesToUuids.lookup k = some v → v = articleUuid k

theorem insertArticle_good (m : ArticleMap) (name : String) (h : GoodMap m) :
    GoodMap (insertArticle m name).2 := by
  unfold insertArticle
  cases h0 : m.namesToUuids.lookup name with
  | some u => simpa [h0] using h
  | none =>
    simp only [h0]
    intro k v hk
    rw [List.lookup_cons] at hk
    cases hkn : k == name with
    | true =>
      rw [hkn] at hk
      injection hk with hv
      rw [← hv, eq_of_beq hkn]
    | false =>
      rw [hkn] at hk
      exact h k v hk

theorem runFrom_good (names : List String) :
    ∀ m : ArticleMap, GoodMap m → GoodMap (runFrom m names) := by
  induction names with
  | nil => intro m h; exact h
  | cons nm rest ih =>
    intro m h
    exact ih (insertArticle m nm).2 (insertArticle_good m nm h)

theorem insertArticle_lookup_isSome (m : ArticleMap) (nm n : String) :
    (((insertArticle m nm).2).namesToUuids.lookup n).isSome
      = ((m.namesToUuids.lookup n).isSome || (n == nm)) := by
  unfold insertArticle
  cases h0 : m.namesToUuids.lookup nm with
  | some u =>
    simp only [h0]
    cases hnm : n == nm with
    | true => rw [eq_of_beq hnm, h0]; simp
    | false => simp [hnm]
  | none =>
    simp only [h0, List.lookup_cons]
    cases hnm : n == nm with
    | true => simp [hnm]
    | false => simp [hnm]

theorem insertArticle_second_call_hashed (m : ArticleMap) (name : String) :
    insertArticle (insertArticle m name).2 name = insertArticle m name := by
  cases h0 : m.namesToUuids.lookup name with
  | some u =>
    have h1 : insertArticle m name = (u, m) := by unfold insertArticle; simp [h0]
    rw [h1]
    exact h1
  | none =>
    have h1 : insertArticle m name
        = (articleUuid name,
           ⟨(articleUuid name, name) :: m.uuidsToNames,
            (name, articleUuid name) :: m.namesToUuids, m.links⟩) := by
      unfold insertArticle; simp [h0]
    rw [h1]
    unfold insertArticle
    simp [List.lookup_cons]

theorem runFrom_lookup_isSome (names : List String) :
    ∀ (m : ArticleMap) (n : String),
      ((runFrom m names).namesToUuids.lookup n).isSome
        = ((m.namesToUuids.lookup n).isSome || names.contains n) := by
  induction names with
  | nil => intro m n; simp [runFrom]
  | cons nm rest ih =>
    intro m n
    have hstep : runFrom m (nm :: rest) = runFrom (insertArticle m nm).2 rest := rfl
    rw [hstep, ih, insertArticle_lookup_isSome, List.contains_cons]
    cases m.namesToUuids.lookup n <;> cases hnm : n == nm <;> simp

end Crawler

/-! ## Concrete inputs used by the claim theorems -/

/-- A one-record archive: title `A`, most-recent-revision body
`[[Target|Shown Text]]` — a piped wiki-link. -/
def archiveWithPipedLink : List Indexer.XmlEvent :=
  [.start (utf8Encode "page"), .start (utf8Encode "title"), .text (utf8Encode "A"),
   .endTag (utf8Encode "title"), .start (utf8Encode "revision"), .start (utf8Encode "text"),
   .text (utf8Encode "[[Target|Shown Text]]"), .endTag (utf8Encode "text"),
   .endTag (utf8Encode "revision")]

/-- A one-record archive: title `A`, body `[[File:X]]` — a wiki-link whose
target name carries the blacklisted `File:` prefix. -/
def archiveWithFileLink : List Indexer.XmlEvent :=
  [.start (utf8Encode "page"), .start (utf8Encode "title"), .text (utf8Encode "A"),
   .endTag (utf8Encode "title"), .start (utf8Encode "revision"), .start (utf8Encode "text"),
   .text (utf8Encode "[[File:X]]"), .endTag (utf8Encode "text"),
   .endTag (utf8Encode "revision")]

/-- An `ArticleMap` with exactly 25,000 articles. -/
def exampleMap : Indexer.ArticleMap :=
  ⟨(List.range 25000).map (fun i => (toString i, i)), []⟩

/-- An `ArticleMap` with two articles. -/
def smallMap : Indexer.ArticleMap := ⟨[("A", 1), ("B", 2)], []⟩

theorem blake2bDigestBytes_length (h : List Nat) : (blake2bDigestBytes h).length = 64 := by
  simp [blake2bDigestBytes, le8]

/-! ## Claim theorems -/

/-- C1: the specification claims that for a body containing the piped link
`[[Target|Shown Text]]` the extraction resolves the destination `Target` and
inserts the edge.  The regex `\[\[([^\[\]|]+)(|[\]]+)?\]\]` cannot match a
piped link at all (its `|` is an unescaped empty-first alternation), so on
this body `read_archive` extracts no capture, resolves no `Target`, and
inserts no edge — only the record's own title is inserted. -/
theorem C1_piped_link_not_extracted :
    wikiLinkCaptures ("[[Target|Shown Text]]".data) = []
    ∧ (Indexer.parsedMap 0 archiveWithPipedLink).links = []
    ∧ (Indexer.parsedMap 0 archiveWithPipedLink).uuids.lookup "Target" = none
    ∧ (Indexer.parsedMap 0 archiveWithPipedLink).uuids.lookup "A" = some (uuidV1 0 0 0) :=
  ⟨by decide, by decide, by decide, by decide⟩

/-- C2: in `crawler.rs` (and the other promise-window variants), `flush`
awaits the outstanding request promises but never submits the remaining
partial `self.buf`, so a pushed item that never filled a batch is lost: one
push followed by flush submits nothing.  In `indexer.rs`, `flush` does hand
off the partial buffer and every pushed item ends up in exactly the
submitted batches, in order. -/
theorem C2_flush_partial_buffer :
    Crawler.BulkInserter.flush
        (Crawler.BulkInserter.push Crawler.BulkInserter.new (BulkInsertItem.vertex 0 "article"))
      = []
    ∧ ∀ items : List BulkInsertItem,
        ((Indexer.BulkInserter.new.pushAll items).flush).flatten = items := by
  refine ⟨by decide, fun items => ?_⟩
  rw [Indexer.flush_flatten, Indexer.pushAll_flatten]
  simp [Indexer.BulkInserter.new]

/-- C3 counterexample: after parsing an archive whose only (non-blacklisted)
record links to `[[File:X]]`, the blacklisted name `File:X` appears as a key
of `uuids` — link destinations are never checked against the blacklist. -/
theorem C3_counterexample_blacklisted_name_in_uuids :
    (Indexer.parsedMap 0 archiveWithFileLink).uuids.lookup "File:X" = some (uuidV1 1 0 0)
    ∧ isBlacklisted "File:X" = true :=
  ⟨by decide, by decide⟩

/-- C3 amended: a record with a blacklisted title contributes nothing as a
record — in particular every edge source in `links` is the id of some
non-blacklisted name.  (Blacklisted names can still appear in `uuids` as link
destinations of other records, as the counterexample shows.) -/
theorem C3_link_sources_not_blacklisted (events : List Indexer.XmlEvent) (clock0 : Nat)
    (am : Indexer.ArticleMap) (h : Indexer.readArchive clock0 events = Except.ok am) :
    ∀ u ds, (u, ds) ∈ am.links →
      ∃ n, am.uuids.lookup n = some u ∧ isBlacklisted n = false := by
  intro u ds hmem
  refine Indexer.readLoop_linksOk events (Indexer.initMachine clock0)
    (fun hst => absurd rfl hst) ?_ am h u ds hmem
  intro u2 ds2 hmem2
  simp [Indexer.initMachine, Indexer.ArticleMap.empty] at hmem2

/-- C3 witness: the amended statement applied to the `[[File:X]]` archive,
whose single edge source is the id of the non-blacklisted title `A`. -/
theorem C3_link_sources_not_blacklisted_witness :
    ∃ n, (Indexer.parsedMap 0 archiveWithFileLink).uuids.lookup n = some (uuidV1 0 0 0)
      ∧ isBlacklisted n = false :=
  C3_link_sources_not_blacklisted archiveWithFileLink 0
    (Indexer.parsedMap 0 archiveWithFileLink) rfl
    (uuidV1 0 0 0) [uuidV1 1 0 0] (by decide)

/-- C4 counterexample: the `indexer.rs` `insert_article` derives fresh ids
from the wall clock (`Uuid::new_v1(Timestamp::from_unix(..))`), so two
independent runs — two fresh `ArticleMap`s observed at different clock
ticks — assign different ids to the same name `A`. -/
theorem C4_counterexample_time_ordered_ids_differ_across_runs :
    (Indexer.insertArticle ⟨Indexer.ArticleMap.empty, 0⟩ "A").1
      ≠ (Indexer.insertArticle ⟨Indexer.ArticleMap.empty, 1⟩ "A").1 := by
  decide

/-- C4 amended: the hash-based assigner (`crawler.rs` `insert_article`,
backed by `article_uuid`) is a pure function of the name: after any run, a
name is mapped to exactly its BLAKE2b-16 content hash, identically within
and across runs; the `indexer.rs` variant is only stable within one run (its
map memoizes the first time-ordered id). -/
theorem C4_hash_identity_pure_function_of_name :
    (∀ (names : List String) (n : String),
        (Crawler.runInserts names).namesToUuids.lookup n
          = if n ∈ names then some (articleUuid n) else none)
    ∧ (∀ (s : Indexer.ClockedMap) (name : String),
        Indexer.insertArticle (Indexer.insertArticle s name).2 name
          = Indexer.insertArticle s name) := by
  constructor
  · intro names n
    have hG : Crawler.GoodMap (Crawler.runInserts names) := by
      rw [Crawler.runInserts_eq_runFrom]
      refine Crawler.runFrom_good names Crawler.ArticleMap.empty ?_
      intro k v hk
      simp [Crawler.ArticleMap.empty] at hk
    have hS := Crawler.runFrom_lookup_isSome names Crawler.ArticleMap.empty n
    rw [← Crawler.runInserts_eq_runFrom] at hS
    have hS2 : ((Crawler.runInserts names).namesToUuids.lookup n).isSome
        = names.contains n := by
      simpa [Crawler.ArticleMap.empty] using hS
    by_cases hmem : n ∈ names
    · have hc : names.contains n = true := List.elem_iff.mpr hmem
      rw [hc] at hS2
      obtain ⟨v, hv⟩ := Option.isSome_iff_exists.mp hS2
      have hgood := hG n v hv
      rw [if_pos hmem, hv, hgood]
    · have hc : names.contains n = false := by
        cases hcc : names.contains n
        · rfl
        · exact absurd (List.elem_iff.mp hcc) hmem
      rw [hc] at hS2
      rw [if_neg hmem]
      exact Option.not_isSome_iff_eq_none.mp (by simp [hS2])
  · exact Indexer.insertArticle_second_call

/-- C5 counterexample: with 25,000 articles the entity phase pushes two
items per article, so the batches are not 10,000/10,000/5,000. -/
theorem C5_counterexample_not_three_batches :
    ¬ ((Indexer.insertArticlesBatches exampleMap).map List.length
        = [10000, 10000, 5000]) := by
  have hsize : exampleMap.uuids.length = 25000 := by simp [exampleMap]
  have h2 : 2 * exampleMap.uuids.length % REQUEST_BUFFER_SIZE = 0 := by
    rw [hsize]; decide
  have hs := Indexer.insertArticlesBatches_sizes exampleMap h2
  rw [hs, hsize]
  decide

/-- C5 amended: an `ArticleGraph` with exactly 25,000 articles produces
50,000 entity-phase write items (one entity-create plus one property-set per
article), dispatched as exactly 5 batches of 10,000 items each, all of which
are handed off and completed by `flush`. -/
theorem C5_entity_dispatch_five_full_batches (am : Indexer.ArticleMap)
    (h : am.uuids.length = 25000) :
    (Indexer.insertArticlesBatches am).map List.length
      = List.replicate 5 REQUEST_BUFFER_SIZE := by
  have h2 : 2 * am.uuids.length % REQUEST_BUFFER_SIZE = 0 := by rw [h]; decide
  have hs := Indexer.insertArticlesBatches_sizes am h2
  rw [hs, h]
  decide

/-- C5 witness: the amended statement evaluated on a concrete 25,000-article
map. -/
theorem C5_entity_dispatch_five_full_batches_witness :
    exampleMap.uuids.length = 25000
    ∧ (Indexer.insertArticlesBatches exampleMap).map List.length
        = List.replicate 5 REQUEST_BUFFER_SIZE := by
  have hsize : exampleMap.uuids.length = 25000 := by simp [exampleMap]
  exact ⟨hsize, C5_entity_dispatch_five_full_batches exampleMap hsize⟩

/-- C6: every batch the entity phase emits is a concatenation of
(entity-create, property-set) pairs about one id each: a batch boundary
never separates an article's vertex item from its `name` property item.
This holds because each handed-off batch has exactly 10,000 (an even number
of) items and the remainder flushed at the end is also even. -/
theorem C6_vertex_and_property_share_batch (am : Indexer.ArticleMap)
    (b : List BulkInsertItem) (hb : b ∈ Indexer.insertArticlesBatches am) :
    Indexer.IsPairList b := by
  have hp : Indexer.IsPairList (Indexer.entityItems am) :=
    Indexer.entityItems_isPairList am.uuids
  have hnew : (Indexer.BulkInserter.new : Indexer.BulkInserter).buf.length
      < REQUEST_BUFFER_SIZE := by
    simp [Indexer.BulkInserter.new, REQUEST_BUFFER_SIZE]
  have h := Indexer.pushAll_isPairList (Indexer.entityItems am) Indexer.BulkInserter.new hnew
    (by simpa [Indexer.BulkInserter.new] using hp)
    (by intro b2 hb2; simp [Indexer.BulkInserter.new] at hb2)
  unfold Indexer.insertArticlesBatches Indexer.BulkInserter.flush at hb
  split at hb
  · exact h.1 b hb
  · rcases List.mem_append.mp hb with hmem | hmem
    · exact h.1 b hmem
    · rw [List.mem_singleton.mp hmem]
      exact h.2

/-- C6 witness: the only batch of a two-article map is the four-item list
pairing each vertex with its property item. -/
theorem C6_vertex_and_property_share_batch_witness :
    Indexer.IsPairList
      [BulkInsertItem.vertex 1 "article", BulkInsertItem.vertexProperty 1 "name" "A",
       BulkInsertItem.vertex 2 "article", BulkInsertItem.vertexProperty 2 "name" "B"] :=
  C6_vertex_and_property_share_batch smallMap _ (by decide)

/-- C7: `insert_article` is idempotent in both variants: the second call
with the same name returns the same id and leaves the whole map (including
the `uuids` table) unchanged. -/
theorem C7_insert_article_idempotent :
    (∀ (s : Indexer.ClockedMap) (name : String),
        Indexer.insertArticle (Indexer.insertArticle s name).2 name
          = Indexer.insertArticle s name)
    ∧ (∀ (m : Crawler.ArticleMap) (name : String),
        Crawler.insertArticle (Crawler.insertArticle m name).2 name
          = Crawler.insertArticle m name) :=
  ⟨Indexer.insertArticle_second_call, Crawler.insertArticle_second_call_hashed⟩

/-- C8: end of the event stream (`Event::Eof`) in any parser state — also
mid-record in `Page`, `Title`, `Text` or `MostRecentRevision` — breaks the
loop normally and returns `Ok` with the map accumulated so far; the
truncated trailing record contributes nothing and no error is produced. -/
theorem C8_eof_in_any_state_normal_completion (m : Indexer.Machine) :
    Indexer.readLoop m [] = Except.ok m.cm.map :=
  Indexer.readLoop_nil m

/-- C9: the BLAKE2b digest configured with `hash_length(16)` always yields a
16-byte output, so `Uuid::from_slice` in `article_uuid` always succeeds and
the `.unwrap()` is unreachable for every input byte string. -/
theorem C9_article_uuid_coercion_never_fails (nameBytes : List Nat) :
    (articleUuid? nameBytes).isSome = true := by
  have hlen : (blake2b 16 nameBytes).length = 16 := by
    unfold blake2b
    simp [List.length_take, blake2bDigestBytes_length]
  unfold articleUuid? uuidFromSlice
  simp [hlen]

/-- C10: after any sequence of `push` calls on a fresh `indexer.rs`
`BulkInserter`, the producer-side buffer holds strictly fewer than
`REQUEST_BUFFER_SIZE` items — a full buffer is always handed off within the
`push` call that filled it. -/
theorem C10_push_buffer_strictly_bounded (items : List BulkInsertItem) :
    ((Indexer.BulkInserter.new.pushAll items).buf).length < REQUEST_BUFFER_SIZE :=
  Indexer.pushAll_buf_length_lt items Indexer.BulkInserter.new
    (by simp [Indexer.BulkInserter.new, REQUEST_BUFFER_SIZE])

end WikiIndex
